import Mathlib

/-!
Verification of the memory-marshaling module of the wasmlanche SDK
(`x/programs/rust/wasmlanche-sdk/src/memory.rs`).

The module exposes:
* `to_host_ptr` — packs a buffer's `(address, length)` into a single `i64`
  handle (address in bits 0–31, length in bits 32–63), failing with
  `StateError::IntegerConversion` when either component exceeds `u32::MAX`;
* `GLOBAL_STORE` — a map from raw addresses to the allocated length;
* `alloc` — allocates `len` bytes, records `(ptr, len)` in `GLOBAL_STORE`,
  panicking/aborting on `len == 0`, on `Layout::array` capacity overflow,
  and on a null result from the system allocator;
* `into_bytes` — removes the handle's address from `GLOBAL_STORE` and, when
  an entry existed, rebuilds the owned byte vector from the raw memory;
* `from_host_ptr` — composes `into_bytes` with borsh deserialization,
  mapping a missing entry to `StateError::InvalidPointer` and a parse
  failure to `StateError::Deserialization`.

Machine integers are embedded as `Nat`/`Int` with explicit two's-complement
conversion for the `i64` handle; the tracker is an association list with
map semantics (insert overwrites, remove deletes); guest linear memory is a
function `Nat → Nat` giving the byte stored at each address.
-/

namespace Wasmlanche

/-- The variants of `crate::state::Error` used by `memory.rs`
(`IntegerConversion`, `InvalidPointer`, `Deserialization`). -/
inductive StateError
  | IntegerConversion
  | InvalidPointer
  | Deserialization
  deriving DecidableEq, Repr

/-- `u32::MAX`. -/
def u32MAX : Nat := 2 ^ 32 - 1

/-- Two's-complement reading of a 64-bit pattern as an `i64` value. -/
def toI64 (bits : Nat) : Int :=
  let b : Nat := bits % 2 ^ 64
  if b < 2 ^ 63 then (b : Int) else (b : Int) - 2 ^ 64

/-- The 64-bit pattern of an `i64` value. -/
def toBits64 (x : Int) : Nat := (x % (2 ^ 64 : Int)).toNat

/-- `to_host_ptr` (memory.rs lines 50–61): given the buffer's address
(`arg.as_ptr() as usize`) and length (`arg.len()`), checks that both fit in
a `u32` and otherwise packs them as
`i64::from(ptr as u32) | (i64::from(len as u32) << 32)`.
The `as u32` casts are the `% 2^32` truncations; the bitwise or is computed
on the 64-bit patterns and the result read back as a signed value. -/
def to_host_ptr (ptr len : Nat) : Except StateError Int :=
  if ptr > u32MAX ∨ len > u32MAX then
    .error .IntegerConversion
  else
    .ok (toI64 ((ptr % 2 ^ 32) ||| ((len % 2 ^ 32) <<< 32)))

/-- Modelled from the spec: the Handle codec's
`decode(handle) → (address, length)` — pure bit extraction, bits 0–31 the
address and bits 32–63 the length. The guest sources under verification
contain only the encoder `to_host_ptr`; the decoding counterpart lives in
the host-side runtime, which is not part of these sources. -/
def decode (h : Int) : Nat × Nat :=
  (toBits64 h % 2 ^ 32, toBits64 h / 2 ^ 32)

/- ### Bit-level helper lemmas for the codec -/

theorem toBits64_toI64 (n : Nat) : toBits64 (toI64 n) = n % 2 ^ 64 := by
  simp only [toI64, toBits64]
  split <;> omega

theorem encPattern_mod (a l : Nat) (ha : a < 2 ^ 32) :
    (a ||| (l <<< 32)) % 2 ^ 32 = a := by
  apply Nat.eq_of_testBit_eq
  intro i
  simp only [Nat.testBit_mod_two_pow, Nat.testBit_or, Nat.testBit_shiftLeft]
  by_cases h : i < 32
  · have h' : ¬ 32 ≤ i := by omega
    simp [h, h']
  · have hbit : a.testBit i = false := by
      apply Nat.testBit_lt_two_pow
      calc a < 2 ^ 32 := ha
        _ ≤ 2 ^ i := Nat.pow_le_pow_right (by norm_num) (by omega)
    simp [h, hbit]

theorem encPattern_div (a l : Nat) (ha : a < 2 ^ 32) :
    (a ||| (l <<< 32)) / 2 ^ 32 = l := by
  rw [← Nat.shiftRight_eq_div_pow]
  apply Nat.eq_of_testBit_eq
  intro i
  simp only [Nat.testBit_shiftRight, Nat.testBit_or, Nat.testBit_shiftLeft]
  have hbit : a.testBit (32 + i) = false := by
    apply Nat.testBit_lt_two_pow
    calc a < 2 ^ 32 := ha
      _ ≤ 2 ^ (32 + i) := Nat.pow_le_pow_right (by norm_num) (by omega)
  have h32 : 32 ≤ 32 + i := by omega
  simp [hbit, h32, Nat.add_sub_cancel_left]

theorem enc_pattern_lt_two_pow (a l : Nat) (ha : a < 2 ^ 32) (hl : l < 2 ^ 32) :
    (a ||| (l <<< 32)) < 2 ^ 64 := by
  apply Nat.or_lt_two_pow
  · omega
  · rw [Nat.shiftLeft_eq]
    omega

/- ### The allocation tracker (`GLOBAL_STORE`) -/

/-- `GLOBAL_STORE` (memory.rs lines 39–42): a `HashMap<*const u8, usize>`
from raw addresses to the length allocated there, embedded as an
association list with map semantics (at most one binding per key is ever
observable through the operations below). -/
abbrev Tracker := List (Nat × Nat)

/-- `HashMap` lookup on the tracker. -/
def trackerGet (s : Tracker) (a : Nat) : Option Nat :=
  match s with
  | [] => none
  | (k, v) :: t => if k = a then some v else trackerGet t a

/-- The removal effect of `HashMap::remove` — deletes the binding for `a`. -/
def trackerRemove (s : Tracker) (a : Nat) : Tracker :=
  match s with
  | [] => []
  | (k, v) :: t => if k = a then trackerRemove t a else (k, v) :: trackerRemove t a

/-- `HashMap::insert` — records a binding, overwriting any previous one. -/
def trackerInsert (s : Tracker) (a len : Nat) : Tracker :=
  (a, len) :: trackerRemove s a

/- ### Guest linear memory -/

/-- The byte stored at each address of guest linear memory. -/
abbrev Mem := Nat → Nat

/-- The `len` bytes starting at address `a` — what
`Vec::from_raw_parts(ptr, len, len)` captures. -/
def readBytes (mem : Mem) (a len : Nat) : List Nat :=
  (List.range len).map (fun i => mem (a + i))

/-- Writing the byte pattern `bs` at address `a` (the host storing data at
an address returned by `alloc`). -/
def writeBytes (mem : Mem) (a : Nat) (bs : List Nat) : Mem :=
  fun x => if a ≤ x ∧ x - a < bs.length then bs.getD (x - a) 0 else mem x

/- ### Reclamation -/

/-- The `ptr as *const u8` cast in `into_bytes`: the `i64` handle truncated
to the 32-bit pointer width of the wasm32 target. -/
def i64ToPtr (h : Int) : Nat := toBits64 h % 2 ^ 32

/-- `into_bytes` (memory.rs lines 85–89): removes the pointer's entry from
`GLOBAL_STORE`; when an entry with length `len` existed, rebuilds the owned
vector from the `len` bytes at that address
(`Vec::from_raw_parts(ptr, len, len)`); otherwise returns `None` without
touching memory. Returns the reclaimed bytes together with the tracker
state after the call. -/
def into_bytes (s : Tracker) (mem : Mem) (h : Int) : Option (List Nat) × Tracker :=
  let p := i64ToPtr h
  match trackerGet s p with
  | some len => (some (readBytes mem p len), trackerRemove s p)
  | none => (none, s)

/-- `from_host_ptr` (memory.rs lines 72–80): reclaims the handle's bytes
via `into_bytes` and deserializes them. `des` stands for the external
borsh `from_slice::<V>` parser. A missing tracker entry yields
`InvalidPointer`; a parse failure yields `Deserialization`. -/
def from_host_ptr {V : Type} (des : List Nat → Option V) (s : Tracker)
    (mem : Mem) (h : Int) : Except StateError V × Tracker :=
  match into_bytes s mem h with
  | (some bytes, s1) =>
    (match des bytes with
     | some v => .ok v
     | none => .error .Deserialization, s1)
  | (none, s1) => (.error .InvalidPointer, s1)

/- ### Allocation -/

/-- Outcome of `alloc`: either a fatal condition (panic or abort — no value
is returned to the caller) or a raw address together with the new tracker
state. -/
inductive AllocResult
  | fatal
  | ok (addr : Nat) (store : Tracker)
  deriving DecidableEq, Repr

/-- `alloc` (memory.rs lines 97–111). `isizeMax` is the platform's
`isize::MAX` (`Layout::array::<u8>(len)` fails exactly when `len`
exceeds it); `sysPtr` is the pointer the system allocator returns for this
request, `0` standing for the null pointer. The function panics on a
zero-length request (`assert!(len > 0)`), panics on capacity overflow
(`expect("capacity overflow")`), aborts on a null allocation
(`handle_alloc_error`), and otherwise records `(ptr, len)` in
`GLOBAL_STORE` and returns the pointer. -/
def alloc (isizeMax : Nat) (sysPtr : Nat) (len : Nat) (s : Tracker) : AllocResult :=
  if len = 0 then .fatal
  else if len > isizeMax then .fatal
  else if sysPtr = 0 then .fatal
  else .ok sysPtr (trackerInsert s sysPtr len)

/- ### Tracker lemmas -/

theorem trackerGet_remove_self (s : Tracker) (a : Nat) :
    trackerGet (trackerRemove s a) a = none := by
  induction s with
  | nil => rfl
  | cons e t ih =>
    obtain ⟨k, v⟩ := e
    by_cases h : k = a
    · simpa [trackerRemove, h] using ih
    · simpa [trackerRemove, trackerGet, h] using ih

theorem trackerGet_remove_ne (s : Tracker) (a b : Nat) (hne : b ≠ a) :
    trackerGet (trackerRemove s a) b = trackerGet s b := by
  induction s with
  | nil => rfl
  | cons e t ih =>
    obtain ⟨k, v⟩ := e
    by_cases h : k = a
    · have h2 : ¬ k = b := by omega
      simpa [trackerRemove, trackerGet, h, h2, Ne.symm hne] using ih
    · by_cases h2 : k = b
      · simp [trackerRemove, trackerGet, h, h2, hne]
      · simpa [trackerRemove, trackerGet, h, h2, hne] using ih

theorem trackerRemove_of_get_none (s : Tracker) (a : Nat)
    (h : trackerGet s a = none) : trackerRemove s a = s := by
  induction s with
  | nil => rfl
  | cons e t ih =>
    obtain ⟨k, v⟩ := e
    by_cases he : k = a
    · simp [trackerGet, he] at h
    · simp only [trackerGet, he, if_neg, if_false] at h
      simp [trackerRemove, he, ih h]

theorem trackerGet_insert_self (s : Tracker) (a len : Nat) :
    trackerGet (trackerInsert s a len) a = some len := by
  simp [trackerInsert, trackerGet]

theorem trackerGet_insert_ne (s : Tracker) (a len b : Nat) (hne : b ≠ a) :
    trackerGet (trackerInsert s a len) b = trackerGet s b := by
  have h1 : ¬ a = b := fun h => hne h.symm
  simp only [trackerInsert, trackerGet, h1, if_false]
  exact trackerGet_remove_ne s a b hne

theorem trackerInsert_length (s : Tracker) (a len : Nat)
    (h : trackerGet s a = none) : (trackerInsert s a len).length = s.length + 1 := by
  rw [trackerInsert, trackerRemove_of_get_none s a h]
  rfl

/- ### Memory lemmas -/

theorem readBytes_writeBytes (mem : Mem) (a : Nat) (bs : List Nat) :
    readBytes (writeBytes mem a bs) a bs.length = bs := by
  have hmap : ∀ i < bs.length, writeBytes mem a bs (a + i) = bs.getD i 0 := by
    intro i hi
    have hc : a ≤ a + i ∧ a + i - a < bs.length := by omega
    rw [writeBytes, if_pos hc, Nat.add_sub_cancel_left]
  have : readBytes (writeBytes mem a bs) a bs.length
      = (List.range bs.length).map (fun i => bs.getD i 0) := by
    apply List.map_congr_left
    intro i hi
    exact hmap i (List.mem_range.mp hi)
  rw [this]
  clear hmap this
  induction bs with
  | nil => rfl
  | cons b t ih =>
    have hr : List.range (t.length + 1) = 0 :: (List.range t.length).map (· + 1) :=
      List.range_succ_eq_map t.length
    simp only [List.length_cons, hr, List.map_cons, List.map_map]
    refine congrArg₂ _ rfl ?_
    have hpt : ∀ i ∈ List.range t.length,
        ((fun i => (b :: t).getD i 0) ∘ fun x => x + 1) i = t.getD i 0 := by
      intro i hi
      simp [Function.comp]
    rw [List.map_congr_left hpt, ih]

theorem toI64_range (n : Nat) : -2 ^ 63 ≤ toI64 n ∧ toI64 n < 2 ^ 63 := by
  simp only [toI64]
  split <;> omega

/- ### Claims about the handle codec -/

/-- C1: for every pair `(address, length)` with both components at most
`2^32 - 1`, encoding via `to_host_ptr` succeeds and decoding the resulting
handle (bit extraction of bits 0–31 and 32–63) returns exactly the
original pair. -/
theorem to_host_ptr_decode_roundtrip (a l : Nat) (ha : a ≤ u32MAX) (hl : l ≤ u32MAX) :
    ∃ h : Int, to_host_ptr a l = .ok h ∧ decode h = (a, l) := by
  have hu : u32MAX = 2 ^ 32 - 1 := rfl
  have ha' : a < 2 ^ 32 := by omega
  have hl' : l < 2 ^ 32 := by omega
  have hma : a % 2 ^ 32 = a := Nat.mod_eq_of_lt ha'
  have hml : l % 2 ^ 32 = l := Nat.mod_eq_of_lt hl'
  refine ⟨toI64 ((a % 2 ^ 32) ||| ((l % 2 ^ 32) <<< 32)), ?_, ?_⟩
  · rw [to_host_ptr, if_neg (by omega)]
  · have hlt : (a ||| (l <<< 32)) < 2 ^ 64 := enc_pattern_lt_two_pow a l ha' hl'
    rw [decode, toBits64_toI64, hma, hml, Nat.mod_eq_of_lt hlt,
      encPattern_mod a l ha', encPattern_div a l ha']

/-- C1 witness: the round trip at the concrete pair `(7, 5)`. -/
theorem to_host_ptr_decode_roundtrip_witness :
    ∃ h : Int, to_host_ptr 7 5 = .ok h ∧ decode h = (7, 5) :=
  to_host_ptr_decode_roundtrip 7 5 (by decide) (by decide)

/-- C2: `to_host_ptr` returns `StateError::IntegerConversion` exactly when
the address or the length exceeds `u32::MAX`, and returns a handle for
every input where both fit in 32 bits unsigned. -/
theorem to_host_ptr_error_iff (a l : Nat) :
    (to_host_ptr a l = .error .IntegerConversion ↔ (a > u32MAX ∨ l > u32MAX))
    ∧ ((∃ h, to_host_ptr a l = .ok h) ↔ (a ≤ u32MAX ∧ l ≤ u32MAX)) := by
  have hu : u32MAX = 2 ^ 32 - 1 := rfl
  by_cases hc : a > u32MAX ∨ l > u32MAX
  · rw [to_host_ptr, if_pos hc]
    refine ⟨⟨fun _ => hc, fun _ => rfl⟩, ?_⟩
    constructor
    · rintro ⟨h, hh⟩
      simp at hh
    · rintro ⟨h1, h2⟩
      omega
  · rw [to_host_ptr, if_neg hc]
    constructor
    · constructor
      · intro hh
        simp at hh
      · intro hh
        exact absurd hh hc
    · constructor
      · intro _
        constructor <;> omega
      · intro _
        exact ⟨_, rfl⟩

/-- C3: when `to_host_ptr` succeeds, the returned handle is a 64-bit
signed integer (it lies in `[-2^63, 2^63)`) whose 64-bit pattern is
`(address & 0xFFFFFFFF) | (length << 32)` — address in bits 0–31, length
in bits 32–63. -/
theorem to_host_ptr_bits (a l : Nat) (h : Int) (hok : to_host_ptr a l = .ok h) :
    -2 ^ 63 ≤ h ∧ h < 2 ^ 63
    ∧ toBits64 h = (a &&& 0xFFFFFFFF) ||| (l <<< 32) := by
  have hu : u32MAX = 2 ^ 32 - 1 := rfl
  rw [to_host_ptr] at hok
  by_cases hc : a > u32MAX ∨ l > u32MAX
  · rw [if_pos hc] at hok
    simp at hok
  · rw [if_neg hc] at hok
    simp only [Except.ok.injEq] at hok
    subst hok
    have ha' : a < 2 ^ 32 := by omega
    have hl' : l < 2 ^ 32 := by omega
    have hma : a % 2 ^ 32 = a := Nat.mod_eq_of_lt ha'
    have hml : l % 2 ^ 32 = l := Nat.mod_eq_of_lt hl'
    have hand : a &&& 0xFFFFFFFF = a := by
      have : (0xFFFFFFFF : Nat) = 2 ^ 32 - 1 := by norm_num
      rw [this, Nat.and_pow_two_sub_one_eq_mod, hma]
    refine ⟨(toI64_range _).1, (toI64_range _).2, ?_⟩
    rw [toBits64_toI64, hma, hml, hand,
      Nat.mod_eq_of_lt (enc_pattern_lt_two_pow a l ha' hl')]

/-- C3 witness: the concrete encoding of `(7, 5)` is
`7 + 5 * 2^32 = 21474836487`, whose bit pattern matches the claimed
formula. -/
theorem to_host_ptr_bits_witness :
    -2 ^ 63 ≤ (21474836487 : Int) ∧ (21474836487 : Int) < 2 ^ 63
    ∧ toBits64 21474836487 = (7 &&& 0xFFFFFFFF) ||| (5 <<< 32) :=
  to_host_ptr_bits 7 5 21474836487 (by rfl)

/- ### Further helper lemmas -/

theorem i64ToPtr_ofNat (a : Nat) (ha : a < 2 ^ 32) : i64ToPtr (a : Int) = a := by
  simp only [i64ToPtr, toBits64]
  omega

theorem alloc_ok_elim (isizeMax sysPtr len : Nat) (s : Tracker) (a : Nat) (s1 : Tracker)
    (hok : alloc isizeMax sysPtr len s = .ok a s1) :
    a = sysPtr ∧ s1 = trackerInsert s sysPtr len ∧ len ≠ 0 ∧ len ≤ isizeMax ∧ sysPtr ≠ 0 := by
  rw [alloc] at hok
  by_cases h0 : len = 0
  · rw [if_pos h0] at hok
    simp at hok
  · rw [if_neg h0] at hok
    by_cases h1 : len > isizeMax
    · rw [if_pos h1] at hok
      simp at hok
    · rw [if_neg h1] at hok
      by_cases h2 : sysPtr = 0
      · rw [if_pos h2] at hok
        simp at hok
      · rw [if_neg h2] at hok
        simp only [AllocResult.ok.injEq] at hok
        exact ⟨hok.1.symm, hok.2.symm, h0, by omega, h2⟩

/- ### Claims about allocation and reclamation -/

/-- C4: `from_host_ptr` fails with `InvalidPointer` exactly when the
handle's address has no tracked entry; after a successful reclamation of
an address a second reclamation of the same address always fails with
`InvalidPointer`; and on the failing path the result does not depend on
the contents of memory (no byte is read) and the tracker is untouched. -/
theorem from_host_ptr_invalid_pointer {V : Type} (des : List Nat → Option V)
    (s : Tracker) (mem mem' : Mem) (h : Int) :
    ((from_host_ptr des s mem h).1 = .error .InvalidPointer
      ↔ trackerGet s (i64ToPtr h) = none)
    ∧ (∀ bs s1, into_bytes s mem h = (some bs, s1) →
        (from_host_ptr des s1 mem' h).1 = .error .InvalidPointer)
    ∧ (trackerGet s (i64ToPtr h) = none →
        into_bytes s mem h = (none, s) ∧ into_bytes s mem' h = (none, s)) := by
  cases hg : trackerGet s (i64ToPtr h) with
  | none =>
    refine ⟨by simp [from_host_ptr, into_bytes, hg], ?_, ?_⟩
    · intro bs s1 hb
      rw [into_bytes] at hb
      simp only [hg] at hb
      simp at hb
    · intro _
      constructor <;> (rw [into_bytes]; simp [hg])
  | some len =>
    refine ⟨?_, ?_, ?_⟩
    · rw [from_host_ptr, into_bytes]
      simp only [hg]
      cases hd : des (readBytes mem (i64ToPtr h) len) <;> simp [hd, hg]
    · intro bs s1 hb
      rw [into_bytes] at hb
      simp only [hg, Prod.mk.injEq] at hb
      have hs1 : s1 = trackerRemove s (i64ToPtr h) := hb.2.symm
      have hnone : trackerGet s1 (i64ToPtr h) = none := by
        rw [hs1]
        exact trackerGet_remove_self s (i64ToPtr h)
      rw [from_host_ptr, into_bytes]
      simp [hnone]
    · intro hcontra
      exact Option.noConfusion hcontra

/-- C4 witness: with the tracker holding only an entry for address 5 of
length 2, the instantiation of the theorem at handle 5. -/
theorem from_host_ptr_invalid_pointer_witness :
    ((from_host_ptr (fun _ => (none : Option Nat)) [(5, 2)] (fun _ => 0) 5).1
        = .error .InvalidPointer
      ↔ trackerGet [(5, 2)] (i64ToPtr 5) = none)
    ∧ (∀ bs s1, into_bytes [(5, 2)] (fun _ => 0) 5 = (some bs, s1) →
        (from_host_ptr (fun _ => (none : Option Nat)) s1 (fun _ => 0) 5).1
          = .error .InvalidPointer)
    ∧ (trackerGet [(5, 2)] (i64ToPtr 5) = none →
        into_bytes [(5, 2)] (fun _ => 0) 5 = (none, [(5, 2)])
        ∧ into_bytes [(5, 2)] (fun _ => 0) 5 = (none, [(5, 2)])) :=
  from_host_ptr_invalid_pointer (fun _ => (none : Option Nat)) [(5, 2)]
    (fun _ => 0) (fun _ => 0) 5

/-- C5: `alloc` reaches a fatal condition (panic or abort, returning no
value) exactly when the requested length is zero, or the length exceeds
the platform's `isize::MAX` (so `Layout::array::<u8>` overflows), or the
system allocator returns a null pointer. -/
theorem alloc_fatal_iff (isizeMax sysPtr len : Nat) (s : Tracker) :
    alloc isizeMax sysPtr len s = .fatal
      ↔ (len = 0 ∨ len > isizeMax ∨ sysPtr = 0) := by
  rw [alloc]
  by_cases h0 : len = 0
  · simp [h0]
  · rw [if_neg h0]
    by_cases h1 : len > isizeMax
    · simp [h1]
    · rw [if_neg h1]
      by_cases h2 : sysPtr = 0
      · simp [h2]
      · rw [if_neg h2]
        simp [h0, h1, h2]

/-- C6: a successful `alloc` of a length in `1..=u32::MAX` returns a
non-null address and creates exactly one new tracker entry, mapping the
returned address to exactly the requested length; every other entry is
untouched and the number of entries grows by one. The hypothesis
`hfresh` records that the system allocator hands out memory that is not
currently allocated, hence not tracked. -/
theorem alloc_ok_spec (isizeMax sysPtr len : Nat) (s : Tracker) (a : Nat) (s1 : Tracker)
    (hlen : 1 ≤ len) (hlen2 : len ≤ u32MAX)
    (hfresh : trackerGet s sysPtr = none)
    (hok : alloc isizeMax sysPtr len s = .ok a s1) :
    a ≠ 0 ∧ trackerGet s1 a = some len
    ∧ (∀ b, b ≠ a → trackerGet s1 b = trackerGet s b)
    ∧ s1.length = s.length + 1 := by
  obtain ⟨hae, hse, -, -, hnz⟩ := alloc_ok_elim isizeMax sysPtr len s a s1 hok
  rw [hae, hse]
  refine ⟨hnz, trackerGet_insert_self s sysPtr len, ?_, ?_⟩
  · intro b hb
    exact trackerGet_insert_ne s sysPtr len b hb
  · exact trackerInsert_length s sysPtr len hfresh

/-- C6 witness: allocating 4 bytes at address 16 in the empty tracker. -/
theorem alloc_ok_spec_witness :
    (16 : Nat) ≠ 0 ∧ trackerGet [(16, 4)] 16 = some 4
    ∧ (∀ b, b ≠ 16 → trackerGet [(16, 4)] b = trackerGet [] b)
    ∧ ([(16, 4)] : Tracker).length = ([] : Tracker).length + 1 :=
  alloc_ok_spec (2 ^ 31 - 1) 16 4 [] 16 [(16, 4)]
    (by decide) (by decide) (by rfl) (by rfl)

/-- C7: after a successful `alloc` of `len` bytes at address `a` and a
host write of the `len`-byte pattern `bs` at `a`, `into_bytes` on the
address returns exactly `bs` as the owned buffer and removes the
address's entry from the tracker. -/
theorem alloc_write_into_bytes (isizeMax sysPtr len : Nat) (s s1 : Tracker) (a : Nat)
    (mem : Mem) (bs : List Nat)
    (hok : alloc isizeMax sysPtr len s = .ok a s1)
    (ha : a ≤ u32MAX)
    (hbs : bs.length = len) :
    into_bytes s1 (writeBytes mem a bs) (a : Int) = (some bs, trackerRemove s1 a)
    ∧ trackerGet (trackerRemove s1 a) a = none := by
  have hu : u32MAX = 2 ^ 32 - 1 := rfl
  obtain ⟨hae, hse, -, -, -⟩ := alloc_ok_elim isizeMax sysPtr len s a s1 hok
  rw [hae, hse]
  rw [hae] at ha
  have hp : i64ToPtr (sysPtr : Int) = sysPtr := i64ToPtr_ofNat sysPtr (by omega)
  have hget : trackerGet (trackerInsert s sysPtr len) sysPtr = some len :=
    trackerGet_insert_self s sysPtr len
  refine ⟨?_, trackerGet_remove_self _ sysPtr⟩
  rw [into_bytes]
  simp only [hp, hget]
  rw [← hbs, readBytes_writeBytes]

/-- C7 witness: allocate 3 bytes at address 16, write the pattern
`[9, 8, 7]` there, and reclaim it. -/
theorem alloc_write_into_bytes_witness :
    into_bytes [(16, 3)] (writeBytes (fun _ => 0) 16 [9, 8, 7]) ((16 : Nat) : Int)
        = (some [9, 8, 7], trackerRemove [(16, 3)] 16)
    ∧ trackerGet (trackerRemove [(16, 3)] 16) 16 = none :=
  alloc_write_into_bytes (2 ^ 31 - 1) 16 3 [] [(16, 3)] 16 (fun _ => 0) [9, 8, 7]
    (by rfl) (by decide) (by rfl)

/-- C8: when the reclaimed bytes of a tracked handle do not parse,
`from_host_ptr` returns the `Deserialization` error, and the tracker
entry for the handle's address has nonetheless been removed. -/
theorem from_host_ptr_deserialization {V : Type} (des : List Nat → Option V)
    (s s1 : Tracker) (mem : Mem) (h : Int) (bs : List Nat)
    (hbytes : into_bytes s mem h = (some bs, s1))
    (hfail : des bs = none) :
    from_host_ptr des s mem h = (.error .Deserialization, s1)
    ∧ trackerGet s1 (i64ToPtr h) = none := by
  have hs1 : s1 = trackerRemove s (i64ToPtr h) := by
    rw [into_bytes] at hbytes
    cases hg : trackerGet s (i64ToPtr h) with
    | none =>
      simp only [hg] at hbytes
      simp at hbytes
    | some len =>
      simp only [hg, Prod.mk.injEq] at hbytes
      exact hbytes.2.symm
  refine ⟨?_, by rw [hs1]; exact trackerGet_remove_self s (i64ToPtr h)⟩
  rw [from_host_ptr, hbytes]
  simp [hfail]

/-- C8 witness: the tracker holds address 5 with length 2, memory is all
zeroes, and the parser rejects every input. -/
theorem from_host_ptr_deserialization_witness :
    from_host_ptr (fun _ => (none : Option Nat)) [(5, 2)] (fun _ => 0) 5
        = (.error .Deserialization, [])
    ∧ trackerGet [] (i64ToPtr 5) = none :=
  from_host_ptr_deserialization (fun _ => (none : Option Nat)) [(5, 2)] []
    (fun _ => 0) 5 [0, 0] (by rfl) (by rfl)

/-- C10: `into_bytes` modifies at most the tracker entry keyed by the
handle's address — every other entry is unchanged — and when the lookup
fails the tracker state is left entirely unchanged. -/
theorem into_bytes_frame (s : Tracker) (mem : Mem) (h : Int) :
    (∀ b, b ≠ i64ToPtr h → trackerGet (into_bytes s mem h).2 b = trackerGet s b)
    ∧ (trackerGet s (i64ToPtr h) = none → (into_bytes s mem h).2 = s) := by
  cases hg : trackerGet s (i64ToPtr h) with
  | none =>
    constructor
    · intro b hb
      rw [into_bytes]
      simp [hg]
    · intro _
      rw [into_bytes]
      simp [hg]
  | some len =>
    constructor
    · intro b hb
      rw [into_bytes]
      simp only [hg]
      exact trackerGet_remove_ne s (i64ToPtr h) b hb
    · intro hcontra
      exact Option.noConfusion hcontra

/-- C10 witness: the instantiation at a two-entry tracker and handle 5. -/
theorem into_bytes_frame_witness :
    (∀ b, b ≠ i64ToPtr 5 →
        trackerGet (into_bytes [(5, 2), (9, 1)] (fun _ => 0) 5).2 b
          = trackerGet [(5, 2), (9, 1)] b)
    ∧ (trackerGet [(5, 2), (9, 1)] (i64ToPtr 5) = none →
        (into_bytes [(5, 2), (9, 1)] (fun _ => 0) 5).2 = [(5, 2), (9, 1)]) :=
  into_bytes_frame [(5, 2), (9, 1)] (fun _ => 0) 5

end Wasmlanche
